import Mathlib

/-!
Shallow embedding of the ImviPD pupillary-distance estimator core
(src/utils/geometry.ts, src/utils/measurement.ts, src/constants.ts,
the marker merge and save logic of App.tsx, and the annotation canvas
hit-testing / coordinate mapping), with theorems checking the
natural-language specification against it.

JavaScript numbers are modelled as real numbers (exact arithmetic);
float rounding is out of scope.  Human-readable issue and quality
strings are modelled as inductive tags carrying the interpolated
numeric data; identifiers and timestamps are modelled as opaque
natural-number tokens.
-/

namespace ImviPD

/-- A 2D point in image-pixel space (types.ts `Point`). -/
structure Point where
  x : ℝ
  y : ℝ

/-- geometry.ts `distance`: Euclidean distance via `Math.hypot`. -/
noncomputable def distance (a b : Point) : ℝ :=
  Real.sqrt ((a.x - b.x) ^ 2 + (a.y - b.y) ^ 2)

/-- geometry.ts `clamp(value, min, max) = Math.min(max, Math.max(min, value))`. -/
noncomputable def clamp (value lo hi : ℝ) : ℝ :=
  min hi (max lo value)

/-- constants.ts `CARD_WIDTH_MM`. -/
def CARD_WIDTH_MM : ℝ := 85.6

/-- constants.ts `MIN_CARD_PIXEL_WIDTH`. -/
def MIN_CARD_PIXEL_WIDTH : ℝ := 90

/-- constants.ts `MIN_PD_MM`. -/
def MIN_PD_MM : ℝ := 45

/-- constants.ts `MAX_PD_MM`. -/
def MAX_PD_MM : ℝ := 80

/-- types.ts `MarkerKey`, the four fixed marker identities. -/
inductive MarkerKey where
  | leftPupil
  | rightPupil
  | leftCard
  | rightCard
deriving DecidableEq

/-- types.ts `MarkerMap`: a total mapping from every MarkerKey to a Point. -/
structure MarkerMap where
  leftPupil : Point
  rightPupil : Point
  leftCard : Point
  rightCard : Point

/-- Field lookup of a `MarkerMap` at a `MarkerKey` (`markers[key]`). -/
def MarkerMap.get (m : MarkerMap) : MarkerKey → Point
  | .leftPupil => m.leftPupil
  | .rightPupil => m.rightPupil
  | .leftCard => m.leftCard
  | .rightCard => m.rightCard

/-- Field update of a `MarkerMap` at a `MarkerKey` (`next[key] = point`). -/
def MarkerMap.set (m : MarkerMap) : MarkerKey → Point → MarkerMap
  | .leftPupil, p => { m with leftPupil := p }
  | .rightPupil, p => { m with rightPupil := p }
  | .leftCard, p => { m with leftCard := p }
  | .rightCard, p => { m with rightCard := p }

/-- The `Object.keys` enumeration order of a `MarkerMap` object.  All marker
objects in the source originate from `createDefaultMarkers` (insertion order
leftPupil, rightPupil, leftCard, rightCard) and are copied by spreads that
preserve that order. -/
def markerKeys : List MarkerKey :=
  [.leftPupil, .rightPupil, .leftCard, .rightCard]

/-- Position of a key in the fixed enumeration order, used to state the
hit-testing tie-break. -/
def keyIdx : MarkerKey → ℕ
  | .leftPupil => 0
  | .rightPupil => 1
  | .leftCard => 2
  | .rightCard => 3

/-- `Partial<MarkerMap>`: per-key optional suggestion values, with key
presence modelled as `Option` (absent key or `undefined` value = `none`). -/
structure PartialMarkerMap where
  leftPupil : Option Point := none
  rightPupil : Option Point := none
  leftCard : Option Point := none
  rightCard : Option Point := none

/-- Lookup of a partial marker map at a key (`result.suggestions[key]`). -/
def PartialMarkerMap.get (s : PartialMarkerMap) : MarkerKey → Option Point
  | .leftPupil => s.leftPupil
  | .rightPupil => s.rightPupil
  | .leftCard => s.leftCard
  | .rightCard => s.rightCard

/-- The auto-suggest merge of App.tsx `runAutoDetect` (success branch):
`next = { ...current }` then for each key of the suggestions,
`if (suggestion) next[key] = suggestion`.  Iterating all four keys and
skipping `none` is equivalent to iterating only the present keys. -/
def mergeSuggestions (current : MarkerMap) (s : PartialMarkerMap) : MarkerMap :=
  markerKeys.foldl
    (fun next key =>
      match s.get key with
      | some suggestion => next.set key suggestion
      | none => next)
    current

/-- Validation issue tags of measurement.ts, with the interpolated numeric
value of the out-of-range message kept as data.  `cardTooClose` stands for
the "Card markers are too close" message, `pdOutOfRange v` for the
"Estimated PD v mm is outside expected range (45-80 mm)" message, and
`cardTilted` for the "Card line appears heavily tilted" message. -/
inductive Issue where
  | cardTooClose
  | pdOutOfRange (pdMm : ℝ)
  | cardTilted

/-- Quality message tags of measurement.ts.  `good` stands for the
"Good quality capture" message, `moderate` for the "Moderate quality"
message, and `low` for the "Low confidence" message. -/
inductive Quality where
  | good
  | moderate
  | low
deriving DecidableEq

/-- types.ts `MeasurementResult`. -/
structure MeasurementResult where
  pupilPixelDistance : ℝ
  cardPixelWidth : ℝ
  mmPerPixel : ℝ
  pdMm : ℝ
  pdMmRounded : ℝ
  confidence : ℝ
  qualityMessage : Quality
  issues : List Issue
  valid : Bool

/-- Rounding to the nearest half unit, `Math.round(x * 2) / 2`.  Mathlib
`round` is round-half-up (`round t = ⌊t + 1/2⌋`), matching JavaScript
`Math.round` on the doubled value. -/
noncomputable def roundHalf (x : ℝ) : ℝ :=
  ((round (x * 2) : ℤ) : ℝ) / 2

/-- measurement.ts `cardTiltRatio`:
`Math.abs(leftCard.y - rightCard.y) / Math.max(cardPixelWidth, 1)`. -/
noncomputable def cardTiltRatio (markers : MarkerMap) : ℝ :=
  |markers.leftCard.y - markers.rightCard.y| / max (distance markers.leftCard markers.rightCard) 1

/-- measurement.ts `calculatePd`.  The mutable `issues` array is threaded as
successive list appends and the reassigned `qualityMessage` and `confidence`
variables as successive lets, in source order. -/
noncomputable def calculatePd (markers : MarkerMap) : MeasurementResult :=
  let pupilPixelDistance := distance markers.leftPupil markers.rightPupil
  let cardPixelWidth := distance markers.leftCard markers.rightCard
  let mmPerPixel := if cardPixelWidth > 0 then CARD_WIDTH_MM / cardPixelWidth else 0
  let pdMm := pupilPixelDistance * mmPerPixel
  let pdMmRounded := ((round (pdMm * 2) : ℤ) : ℝ) / 2
  let issuesA : List Issue :=
    if cardPixelWidth < MIN_CARD_PIXEL_WIDTH then [Issue.cardTooClose] else []
  let issuesB : List Issue :=
    if pdMm < MIN_PD_MM ∨ pdMm > MAX_PD_MM then issuesA ++ [Issue.pdOutOfRange pdMm] else issuesA
  let tiltRatio := cardTiltRatio markers
  let issues : List Issue :=
    if tiltRatio > 0.2 then issuesB ++ [Issue.cardTilted] else issuesB
  let scaleConfidence := clamp ((cardPixelWidth - MIN_CARD_PIXEL_WIDTH) / 220) 0 1
  let tiltConfidence := 1 - clamp (tiltRatio / 0.2) 0 1
  let confidenceRaw := 0.35 + scaleConfidence * 0.45 + tiltConfidence * 0.2
  let confidencePenalized :=
    if pdMm < MIN_PD_MM ∨ pdMm > MAX_PD_MM then confidenceRaw - 0.3 else confidenceRaw
  let confidence := clamp confidencePenalized 0 1
  let qualityMessage :=
    if confidence ≥ 0.75 ∧ issues.length = 0 then Quality.good
    else if confidence ≥ 0.5 then Quality.moderate
    else Quality.low
  { pupilPixelDistance := pupilPixelDistance
    cardPixelWidth := cardPixelWidth
    mmPerPixel := mmPerPixel
    pdMm := pdMm
    pdMmRounded := pdMmRounded
    confidence := confidence
    qualityMessage := qualityMessage
    issues := issues
    valid := issues.length == 0 }

/-- Loop body of AnnotationCanvas.tsx `nearestMarker`: compare the current
distance of the current key against the running nearest distance and keep the strictly
smaller one (on a tie the earlier key is kept, since the update requires a
strict decrease).  The `Number.POSITIVE_INFINITY` initial distance is
modelled as `none` (every finite distance compares below it, so the first
iteration always updates, exactly as in the source). -/
noncomputable def considerMarker (point : Point) (candidates : MarkerMap)
    (acc : Option MarkerKey × Option ℝ) (key : MarkerKey) : Option MarkerKey × Option ℝ :=
  let currentDistance := distance point (candidates.get key)
  match acc with
  | (_, none) => (some key, some currentDistance)
  | (nearest, some nearestDistance) =>
      if currentDistance < nearestDistance then (some key, some currentDistance)
      else (nearest, some nearestDistance)

/-- AnnotationCanvas.tsx `nearestMarker`: iterate the marker keys in
enumeration order, tracking the nearest key and its distance, then return
the nearest key only when its distance is strictly below the 26 image-pixel
pick radius. -/
noncomputable def nearestMarker (point : Point) (candidates : MarkerMap) : Option MarkerKey :=
  let acc := markerKeys.foldl (considerMarker point candidates) (none, none)
  match acc with
  | (nearest, some nearestDistance) => if nearestDistance < 26 then nearest else none
  | (_, none) => none

/-- Per-axis display scale of AnnotationCanvas.tsx:
`{ x: size.width / photo.width, y: size.height / photo.height }`. -/
structure Scale where
  x : ℝ
  y : ℝ

/-- AnnotationCanvas.tsx `toCanvas`: image space to display space. -/
noncomputable def toCanvas (scale : Scale) (point : Point) : Point :=
  ⟨point.x * scale.x, point.y * scale.y⟩

/-- AnnotationCanvas.tsx `getImagePointFromEvent`, with the pointer offset
relative to the canvas rectangle taken as the input point:
each axis is divided by `Math.max(scale, 0.0001)` and clamped to the
image bounds. -/
noncomputable def getImagePoint (scale : Scale) (imageWidth imageHeight : ℝ)
    (pointer : Point) : Point :=
  ⟨clamp (pointer.x / max scale.x 0.0001) 0 imageWidth,
   clamp (pointer.y / max scale.y 0.0001) 0 imageHeight⟩

/-- types.ts `CapturedPhoto`; the data URL is irrelevant to the claims and
the timestamp is modelled as an opaque token. -/
structure CapturedPhoto where
  width : ℝ
  height : ℝ
  capturedAt : ℕ

/-- types.ts `SavedReading`; the id and timestamp strings are modelled as
opaque tokens. -/
structure SavedReading where
  id : ℕ
  savedAt : ℕ
  sourceCapturedAt : ℕ
  pdMm : ℝ
  confidence : ℝ
  qualityMessage : Quality
  valid : Bool
  issues : List Issue
  markers : MarkerMap
  pupilPixelDistance : ℝ
  cardPixelWidth : ℝ
  mmPerPixel : ℝ

/-- App.tsx `saveCurrentReading`: recompute the measurement from the
markers; when it is not valid, no reading is produced (the saving-error
branch); otherwise build the `SavedReading` record exactly as in the
source, with `pdMm` taken from `measurement.pdMmRounded`. -/
noncomputable def saveCurrentReading (photo : CapturedPhoto) (markers : MarkerMap)
    (id savedAt : ℕ) : Option SavedReading :=
  let measurement := calculatePd markers
  if measurement.valid then
    some
      { id := id
        savedAt := savedAt
        sourceCapturedAt := photo.capturedAt
        pdMm := measurement.pdMmRounded
        confidence := measurement.confidence
        qualityMessage := measurement.qualityMessage
        valid := measurement.valid
        issues := measurement.issues
        markers := markers
        pupilPixelDistance := measurement.pupilPixelDistance
        cardPixelWidth := measurement.cardPixelWidth
        mmPerPixel := measurement.mmPerPixel }
  else none

/-- Modelled from the spec, for the refinement claim about confidence:
`scaleConfidence = clamp((cardPixelWidth - MIN_CARD_PIXEL_WIDTH) / 220, 0, 1)`. -/
noncomputable def specScaleConfidence (cardPixelWidth : ℝ) : ℝ :=
  clamp ((cardPixelWidth - MIN_CARD_PIXEL_WIDTH) / 220) 0 1

/-- Modelled from the spec, for the refinement claim about confidence:
`tiltConfidence = 1 - clamp(tiltRatio / 0.2, 0, 1)`. -/
noncomputable def specTiltConfidence (tiltRatio : ℝ) : ℝ :=
  1 - clamp (tiltRatio / 0.2) 0 1

/-- Modelled from the spec, for the refinement claim about confidence:
`confidence = clamp(0.35 + 0.45*scaleConfidence + 0.20*tiltConfidence, 0, 1)`,
then a `-0.3` penalty (pre-clamp) exactly when PD is outside the plausible
range, then a re-clamp to `[0, 1]`. -/
noncomputable def specConfidence (cardPixelWidth tiltRatio pdMm : ℝ) : ℝ :=
  let base := clamp
    (0.35 + 0.45 * specScaleConfidence cardPixelWidth + 0.20 * specTiltConfidence tiltRatio) 0 1
  let penalized := if pdMm < MIN_PD_MM ∨ pdMm > MAX_PD_MM then base - 0.3 else base
  clamp penalized 0 1

/-- Modelled from the spec, for the refinement claim about quality
messages: `confidence >= 0.75` and no issues gives the good message,
otherwise `confidence >= 0.5` gives the moderate message, otherwise the
low message. -/
noncomputable def specQualityMessage (confidence : ℝ) (issues : List Issue) : Quality :=
  if confidence ≥ 0.75 ∧ issues.length = 0 then Quality.good
  else if confidence ≥ 0.5 then Quality.moderate
  else Quality.low

section Helpers

@[simp]
lemma MarkerMap.get_leftPupil (m : MarkerMap) : m.get .leftPupil = m.leftPupil := rfl

@[simp]
lemma MarkerMap.get_rightPupil (m : MarkerMap) : m.get .rightPupil = m.rightPupil := rfl

@[simp]
lemma MarkerMap.get_leftCard (m : MarkerMap) : m.get .leftCard = m.leftCard := rfl

@[simp]
lemma MarkerMap.get_rightCard (m : MarkerMap) : m.get .rightCard = m.rightCard := rfl

lemma distance_self (a : Point) : distance a a = 0 := by
  simp [distance]

/-- Evaluation helper: the square root of a perfect square. -/
lemma sqrt_eval {a b : ℝ} (hb : 0 ≤ b) (h : b ^ 2 = a) : Real.sqrt a = b := by
  rw [← h, Real.sqrt_sq hb]

lemma clamp_le_hi (value lo hi : ℝ) : clamp value lo hi ≤ hi := by
  simp [clamp]

lemma lo_le_clamp (value lo hi : ℝ) (h : lo ≤ hi) : lo ≤ clamp value lo hi := by
  simp only [clamp, le_min_iff]
  exact ⟨h, le_max_left _ _⟩

lemma clamp_eq_of_mem (value lo hi : ℝ) (h1 : lo ≤ value) (h2 : value ≤ hi) :
    clamp value lo hi = value := by
  rw [clamp, max_eq_right h1, min_eq_right h2]

lemma le_clamp_of_le (value hi c : ℝ) (hc1 : c ≤ hi) (hc2 : c ≤ value) :
    c ≤ clamp value 0 hi := by
  simp only [clamp, le_min_iff, le_max_iff]
  exact ⟨hc1, Or.inr hc2⟩

/-- The confidence expression of `calculatePd`, with the raw value left
unclamped before the penalty as in the source, equals the spec formula,
which clamps the raw value to `[0, 1]` before the penalty: the raw value
always lies in `[0.35, 1]`, so the extra clamp is the identity. -/
lemma confidence_formula (cw tr pd : ℝ) :
    clamp
      (if pd < MIN_PD_MM ∨ pd > MAX_PD_MM then
        0.35 + clamp ((cw - MIN_CARD_PIXEL_WIDTH) / 220) 0 1 * 0.45 +
          (1 - clamp (tr / 0.2) 0 1) * 0.2 - 0.3
      else
        0.35 + clamp ((cw - MIN_CARD_PIXEL_WIDTH) / 220) 0 1 * 0.45 +
          (1 - clamp (tr / 0.2) 0 1) * 0.2) 0 1
      = specConfidence cw tr pd := by
  have hs0 : (0 : ℝ) ≤ clamp ((cw - MIN_CARD_PIXEL_WIDTH) / 220) 0 1 :=
    lo_le_clamp _ _ _ (by norm_num)
  have hs1 : clamp ((cw - MIN_CARD_PIXEL_WIDTH) / 220) 0 1 ≤ 1 := clamp_le_hi _ _ _
  have ht0 : (0 : ℝ) ≤ clamp (tr / 0.2) 0 1 := lo_le_clamp _ _ _ (by norm_num)
  have ht1 : clamp (tr / 0.2) 0 1 ≤ 1 := clamp_le_hi _ _ _
  have hB : clamp
      (0.35 + 0.45 * clamp ((cw - MIN_CARD_PIXEL_WIDTH) / 220) 0 1 +
        0.20 * (1 - clamp (tr / 0.2) 0 1)) 0 1
      = 0.35 + 0.45 * clamp ((cw - MIN_CARD_PIXEL_WIDTH) / 220) 0 1 +
        0.20 * (1 - clamp (tr / 0.2) 0 1) :=
    clamp_eq_of_mem _ _ _ (by linarith) (by linarith)
  simp only [specConfidence, specScaleConfidence, specTiltConfidence, hB]
  split_ifs with hP
  · congr 1; ring
  · congr 1; ring

/-- Evaluation helper: `round x = z` whenever `x + 1/2` lies in `[z, z + 1)`. -/
lemma round_eval {x : ℝ} {z : ℤ} (h1 : (z : ℝ) ≤ x + 1 / 2) (h2 : x + 1 / 2 < (z : ℝ) + 1) :
    round x = z := by
  rw [round_eq]
  exact Int.floor_eq_iff.mpr ⟨h1, by exact_mod_cast h2⟩

end Helpers

/-- C3: for every full MarkerMap `m` and every partial suggestion mapping
`s`, the auto-suggest merge produces a MarkerMap whose value at each of the
four keys equals the suggested value when `s` supplies that key and equals
the value of `m` unchanged when it does not; no key is nulled out or blended. -/
theorem mergeSuggestions_pointwise (m : MarkerMap) (s : PartialMarkerMap) (k : MarkerKey) :
    (mergeSuggestions m s).get k = (s.get k).getD (m.get k) := by
  obtain ⟨sl, sr, scl, scr⟩ := s
  cases sl <;> cases sr <;> cases scl <;> cases scr <;> cases k <;> rfl

/-- C2: for every MarkerMap, the confidence returned by `calculatePd`
equals the spec formula `clamp(0.35 + 0.45*scaleConfidence +
0.20*tiltConfidence, 0, 1)` with a 0.3 penalty subtracted before a final
re-clamp to `[0, 1]` exactly when `pdMm` is outside `[45, 80]`, where
`scaleConfidence = clamp((cardPixelWidth - 90) / 220, 0, 1)` and
`tiltConfidence = 1 - clamp(tiltRatio / 0.2, 0, 1)`. -/
theorem confidence_matches_spec (m : MarkerMap) :
    (calculatePd m).confidence =
      specConfidence (distance m.leftCard m.rightCard) (cardTiltRatio m)
        ((calculatePd m).pdMm) := by
  simp only [calculatePd]
  exact confidence_formula _ _ _

/-- C9: for every MarkerMap, the confidence returned by `calculatePd` lies
in `[0.05, 1]`: the pre-penalty value is in `[0.35, 1]`, so even after the
0.3 out-of-range penalty and the final clamp it is never below 0.05 and in
particular never 0. -/
theorem confidence_bounds (m : MarkerMap) :
    0.05 ≤ (calculatePd m).confidence ∧ (calculatePd m).confidence ≤ 1 := by
  have hs0 : (0 : ℝ) ≤
      clamp ((distance m.leftCard m.rightCard - MIN_CARD_PIXEL_WIDTH) / 220) 0 1 :=
    lo_le_clamp _ _ _ (by norm_num)
  have hs1 : clamp ((distance m.leftCard m.rightCard - MIN_CARD_PIXEL_WIDTH) / 220) 0 1 ≤ 1 :=
    clamp_le_hi _ _ _
  have ht0 : (0 : ℝ) ≤ clamp (cardTiltRatio m / 0.2) 0 1 := lo_le_clamp _ _ _ (by norm_num)
  have ht1 : clamp (cardTiltRatio m / 0.2) 0 1 ≤ 1 := clamp_le_hi _ _ _
  simp only [calculatePd]
  refine ⟨?_, clamp_le_hi _ _ _⟩
  apply le_clamp_of_le
  · norm_num
  · split_ifs with hP <;> linarith

/-- C6: `roundHalf x = round(x * 2) / 2` is a multiple of 0.5 nearest to
`x` (ties resolved toward positive infinity on the doubled value, captured
by the half-open interval `x - 1/4 < roundHalf x ≤ x + 1/4`), the
operation is idempotent, and the `pdMmRounded` of `calculatePd` is exactly this
function applied to its `pdMm`. -/
theorem roundHalf_spec (x : ℝ) :
    (∃ k : ℤ, roundHalf x = k / 2) ∧
    (∀ n : ℤ, |x - roundHalf x| ≤ |x - n / 2|) ∧
    (x - 1 / 4 < roundHalf x ∧ roundHalf x ≤ x + 1 / 4) ∧
    roundHalf (roundHalf x) = roundHalf x ∧
    (∀ m : MarkerMap, (calculatePd m).pdMmRounded = roundHalf (calculatePd m).pdMm) := by
  refine ⟨⟨round (x * 2), rfl⟩, ?_, ⟨?_, ?_⟩, ?_, fun m => rfl⟩
  · intro n
    have h := round_le (x * 2) n
    have e1 : x - roundHalf x = (x * 2 - ((round (x * 2) : ℤ) : ℝ)) / 2 := by
      rw [roundHalf]; ring
    have e2 : x - (n : ℝ) / 2 = (x * 2 - (n : ℝ)) / 2 := by ring
    rw [e1, e2, abs_div, abs_div, abs_two]
    linarith [h]
  · have hfl := Int.sub_one_lt_floor (x * 2 + 1 / 2)
    have hr : ((round (x * 2) : ℤ) : ℝ) = ((⌊x * 2 + 1 / 2⌋ : ℤ) : ℝ) := by
      rw [round_eq]
    rw [roundHalf]
    rw [hr]
    linarith
  · have hub := round_le_add_half (x * 2)
    rw [roundHalf]
    linarith
  · simp only [roundHalf]
    rw [div_mul_cancel₀ _ (by norm_num : (2 : ℝ) ≠ 0), round_intCast]

/-- C4 counterexample: with scale factors sx = sy = 0.00005 (positive but
below the 0.0001 division guard of `getImagePointFromEvent`) and the
in-bounds point (100, 100) of a 1000 by 1000 image, the display round-trip
returns (50, 50), not the original point, because the inverse transform
divides by `max(scale, 0.0001) = 0.0001` rather than by the scale
itself. -/
theorem roundTrip_counterexample :
    getImagePoint ⟨0.00005, 0.00005⟩ 1000 1000
        (toCanvas ⟨0.00005, 0.00005⟩ ⟨100, 100⟩) ≠ ⟨100, 100⟩ := by
  intro h
  have hmax : max (0.00005 : ℝ) 0.0001 = 0.0001 := max_eq_right (by norm_num)
  have hx : clamp ((100 : ℝ) * 0.00005 / max (0.00005 : ℝ) 0.0001) 0 1000 = 100 :=
    congrArg Point.x h
  rw [hmax, clamp_eq_of_mem _ _ _ (by norm_num) (by norm_num)] at hx
  norm_num at hx

/-- C4 (amended): for every point within the image bounds and every pair
of scale factors at least the 0.0001 division guard, mapping to display
space and back to image space returns the point exactly, and for every
pointer position whatsoever the image-space result lies within
`[0, imageWidth]` by `[0, imageHeight]`. -/
theorem coordinate_roundTrip (p q : Point) (sx sy w hgt : ℝ)
    (hsx : 0.0001 ≤ sx) (hsy : 0.0001 ≤ sy)
    (hx0 : 0 ≤ p.x) (hxw : p.x ≤ w) (hy0 : 0 ≤ p.y) (hyh : p.y ≤ hgt) :
    getImagePoint ⟨sx, sy⟩ w hgt (toCanvas ⟨sx, sy⟩ p) = p ∧
      (0 ≤ (getImagePoint ⟨sx, sy⟩ w hgt q).x ∧ (getImagePoint ⟨sx, sy⟩ w hgt q).x ≤ w ∧
        0 ≤ (getImagePoint ⟨sx, sy⟩ w hgt q).y ∧ (getImagePoint ⟨sx, sy⟩ w hgt q).y ≤ hgt) := by
  have hsx0 : (0 : ℝ) < sx := lt_of_lt_of_le (by norm_num) hsx
  have hsy0 : (0 : ℝ) < sy := lt_of_lt_of_le (by norm_num) hsy
  have hmx : max sx 0.0001 = sx := max_eq_left hsx
  have hmy : max sy 0.0001 = sy := max_eq_left hsy
  constructor
  · simp only [getImagePoint, toCanvas, hmx, hmy]
    have ex : p.x * sx / sx = p.x := by field_simp
    have ey : p.y * sy / sy = p.y := by field_simp
    rw [ex, ey, clamp_eq_of_mem _ _ _ hx0 hxw, clamp_eq_of_mem _ _ _ hy0 hyh]
  · have hw : (0 : ℝ) ≤ w := le_trans hx0 hxw
    have hh : (0 : ℝ) ≤ hgt := le_trans hy0 hyh
    exact ⟨lo_le_clamp _ _ _ hw, clamp_le_hi _ _ _, lo_le_clamp _ _ _ hh, clamp_le_hi _ _ _⟩

/-- Witness for the amended C4 at a concrete in-bounds point, a concrete
out-of-bounds pointer position, and concrete scales. -/
theorem coordinate_roundTrip_witness :
    getImagePoint ⟨0.5, 0.5⟩ 1000 800 (toCanvas ⟨0.5, 0.5⟩ ⟨100, 200⟩) = ⟨100, 200⟩ ∧
      (0 ≤ (getImagePoint ⟨0.5, 0.5⟩ 1000 800 ⟨5000, -7⟩).x ∧
        (getImagePoint ⟨0.5, 0.5⟩ 1000 800 ⟨5000, -7⟩).x ≤ 1000 ∧
        0 ≤ (getImagePoint ⟨0.5, 0.5⟩ 1000 800 ⟨5000, -7⟩).y ∧
        (getImagePoint ⟨0.5, 0.5⟩ 1000 800 ⟨5000, -7⟩).y ≤ 800) :=
  coordinate_roundTrip ⟨100, 200⟩ ⟨5000, -7⟩ 0.5 0.5 1000 800 (by norm_num) (by norm_num)
    (by norm_num) (by norm_num) (by norm_num) (by norm_num)

/-- Degenerate sample input: all four markers coincide at the origin. -/
def degenerateMarkers : MarkerMap := ⟨⟨0, 0⟩, ⟨0, 0⟩, ⟨0, 0⟩, ⟨0, 0⟩⟩

/-- C1: for every MarkerMap whose card markers coincide (so the card pixel
width is 0), `calculatePd` returns `mmPerPixel = 0` and `pdMm = 0` and its
issue list contains the PD-out-of-range issue (0 is below the 45 mm
minimum).  Totality (no exception, no NaN or Infinity) holds by
construction: `calculatePd` is a total function on real-valued inputs and
the division is guarded by the `cardPixelWidth > 0` test. -/
theorem calculatePd_degenerateCard (m : MarkerMap) (h : m.leftCard = m.rightCard) :
    (calculatePd m).mmPerPixel = 0 ∧ (calculatePd m).pdMm = 0 ∧
      Issue.pdOutOfRange 0 ∈ (calculatePd m).issues := by
  have hcw : distance m.leftCard m.rightCard = 0 := by rw [h]; exact distance_self _
  have htilt : cardTiltRatio m = 0 := by
    simp [cardTiltRatio, h, distance_self]
  simp only [calculatePd, hcw, htilt]
  norm_num [MIN_PD_MM, MAX_PD_MM, MIN_CARD_PIXEL_WIDTH]

/-- Witness for C1 at the concrete degenerate marker map. -/
theorem calculatePd_degenerateCard_witness :
    degenerateMarkers.leftCard = degenerateMarkers.rightCard ∧
      ((calculatePd degenerateMarkers).mmPerPixel = 0 ∧
        (calculatePd degenerateMarkers).pdMm = 0 ∧
        Issue.pdOutOfRange 0 ∈ (calculatePd degenerateMarkers).issues) :=
  ⟨rfl, calculatePd_degenerateCard degenerateMarkers rfl⟩

/-- The end-to-end scenario of the spec: card corners at (300, 200) and
(700, 200), pupils at (400, 480) and (600, 480) in a 1000 by 1000 image. -/
def scenarioMarkers : MarkerMap := ⟨⟨400, 480⟩, ⟨600, 480⟩, ⟨300, 200⟩, ⟨700, 200⟩⟩

/-- Sample input with no issues but middling confidence: card corners at
(0, 0) and (100, 0) (width 100, just above the 90 px minimum), pupils at
(0, 50) and (60, 50) (pd 51.36 mm, in range), zero tilt. -/
def moderateMarkers : MarkerMap := ⟨⟨0, 50⟩, ⟨60, 50⟩, ⟨0, 0⟩, ⟨100, 0⟩⟩

/-- Evaluation: the moderate sample is valid (no issues) and receives the
moderate quality message (its confidence is 251/440, between 0.5 and 0.75). -/
lemma moderate_eval :
    (calculatePd moderateMarkers).valid = true ∧
      (calculatePd moderateMarkers).qualityMessage = Quality.moderate := by
  have hpup : distance moderateMarkers.leftPupil moderateMarkers.rightPupil = 60 := by
    show Real.sqrt (((0 : ℝ) - 60) ^ 2 + ((50 : ℝ) - 50) ^ 2) = 60
    exact sqrt_eval (by norm_num) (by norm_num)
  have hcard : distance moderateMarkers.leftCard moderateMarkers.rightCard = 100 := by
    show Real.sqrt (((0 : ℝ) - 100) ^ 2 + ((0 : ℝ) - 0) ^ 2) = 100
    exact sqrt_eval (by norm_num) (by norm_num)
  have htilt : cardTiltRatio moderateMarkers = 0 := by
    rw [cardTiltRatio, hcard]
    norm_num [moderateMarkers]
  constructor <;>
    norm_num [calculatePd, hpup, hcard, htilt, clamp, min_def, max_def,
      CARD_WIDTH_MM, MIN_CARD_PIXEL_WIDTH, MIN_PD_MM, MAX_PD_MM]

/-- C7: on the end-to-end scenario of the spec, `calculatePd` returns
`mmPerPixel = 85.6/400 = 0.214`, `pdMm = 42.8`, `pdMmRounded = 43.0`, an
out-of-range issue (42.8 is below 45), and `valid = false`. -/
theorem scenario_end_to_end :
    (calculatePd scenarioMarkers).mmPerPixel = 0.214 ∧
      (calculatePd scenarioMarkers).pdMm = 42.8 ∧
      (calculatePd scenarioMarkers).pdMmRounded = 43 ∧
      Issue.pdOutOfRange 42.8 ∈ (calculatePd scenarioMarkers).issues ∧
      (calculatePd scenarioMarkers).valid = false := by
  have hpup : distance scenarioMarkers.leftPupil scenarioMarkers.rightPupil = 200 := by
    show Real.sqrt (((400 : ℝ) - 600) ^ 2 + ((480 : ℝ) - 480) ^ 2) = 200
    exact sqrt_eval (by norm_num) (by norm_num)
  have hcard : distance scenarioMarkers.leftCard scenarioMarkers.rightCard = 400 := by
    show Real.sqrt (((300 : ℝ) - 700) ^ 2 + ((200 : ℝ) - 200) ^ 2) = 400
    exact sqrt_eval (by norm_num) (by norm_num)
  have htilt : cardTiltRatio scenarioMarkers = 0 := by
    rw [cardTiltRatio, hcard]
    norm_num [scenarioMarkers]
  have hrd : ((round ((200 : ℝ) * (CARD_WIDTH_MM / 400) * 2) : ℤ) : ℝ) / 2 = 43 := by
    have harg : (200 : ℝ) * (CARD_WIDTH_MM / 400) * 2 = 85.6 := by
      norm_num [CARD_WIDTH_MM]
    rw [harg, @round_eval (85.6 : ℝ) 86 (by norm_num) (by norm_num)]
    norm_num
  refine ⟨?_, ?_, ?_, ?_, ?_⟩ <;>
    norm_num [calculatePd, hpup, hcard, htilt, hrd,
      MIN_CARD_PIXEL_WIDTH, MIN_PD_MM, MAX_PD_MM] <;>
    norm_num [CARD_WIDTH_MM]

/-- C8: for every MarkerMap, the quality message of `calculatePd` follows
the spec thresholds (good iff confidence at least 0.75 with no issues,
otherwise moderate iff confidence at least 0.5, otherwise low), and there
is a MarkerMap whose result is valid yet receives the moderate message, so
message selection is independent of the valid flag. -/
theorem quality_message_spec :
    (∀ m : MarkerMap, (calculatePd m).qualityMessage =
        specQualityMessage (calculatePd m).confidence (calculatePd m).issues) ∧
      (∃ m : MarkerMap, (calculatePd m).valid = true ∧
        (calculatePd m).qualityMessage = Quality.moderate) :=
  ⟨fun _ => rfl, ⟨moderateMarkers, moderate_eval⟩⟩

/-- C10: whenever a reading is saved, the SavedReading record is built with
its `pdMm` field set to the half-millimeter-rounded `pdMmRounded`, and the
full field enumeration shows the unrounded `pdMm` value appears in none of
the persisted fields. -/
theorem saveCurrentReading_fields (photo : CapturedPhoto) (markers : MarkerMap)
    (id savedAt : ℕ) (h : (calculatePd markers).valid = true) :
    saveCurrentReading photo markers id savedAt =
      some
        { id := id
          savedAt := savedAt
          sourceCapturedAt := photo.capturedAt
          pdMm := (calculatePd markers).pdMmRounded
          confidence := (calculatePd markers).confidence
          qualityMessage := (calculatePd markers).qualityMessage
          valid := (calculatePd markers).valid
          issues := (calculatePd markers).issues
          markers := markers
          pupilPixelDistance := (calculatePd markers).pupilPixelDistance
          cardPixelWidth := (calculatePd markers).cardPixelWidth
          mmPerPixel := (calculatePd markers).mmPerPixel } := by
  simp only [saveCurrentReading, h, if_true]

/-- Witness for C10 at the concrete valid moderate sample. -/
theorem saveCurrentReading_fields_witness :
    (calculatePd moderateMarkers).valid = true ∧
      saveCurrentReading ⟨1000, 1000, 7⟩ moderateMarkers 1 2 =
        some
          { id := 1
            savedAt := 2
            sourceCapturedAt := 7
            pdMm := (calculatePd moderateMarkers).pdMmRounded
            confidence := (calculatePd moderateMarkers).confidence
            qualityMessage := (calculatePd moderateMarkers).qualityMessage
            valid := (calculatePd moderateMarkers).valid
            issues := (calculatePd moderateMarkers).issues
            markers := moderateMarkers
            pupilPixelDistance := (calculatePd moderateMarkers).pupilPixelDistance
            cardPixelWidth := (calculatePd moderateMarkers).cardPixelWidth
            mmPerPixel := (calculatePd moderateMarkers).mmPerPixel } :=
  ⟨moderate_eval.1,
    saveCurrentReading_fields ⟨1000, 1000, 7⟩ moderateMarkers 1 2 moderate_eval.1⟩

/-- Step evaluation: against the infinite initial distance, the first key
always becomes the running nearest. -/
lemma considerMarker_init (p : Point) (m : MarkerMap) (x : Option MarkerKey) (k : MarkerKey) :
    considerMarker p m (x, none) k = (some k, some (distance p (m.get k))) := rfl

/-- Step evaluation: a strictly smaller distance replaces the running
nearest. -/
lemma considerMarker_lt (p : Point) (m : MarkerMap) (x : Option MarkerKey) {k : MarkerKey}
    {b : ℝ} (h : distance p (m.get k) < b) :
    considerMarker p m (x, some b) k = (some k, some (distance p (m.get k))) := by
  show (if distance p (m.get k) < b then (some k, some (distance p (m.get k))) else (x, some b))
    = (some k, some (distance p (m.get k)))
  rw [if_pos h]

/-- Step evaluation: a distance that is not strictly smaller leaves the
running nearest unchanged (so ties keep the earlier key). -/
lemma considerMarker_not_lt (p : Point) (m : MarkerMap) (x : Option MarkerKey) {k : MarkerKey}
    {b : ℝ} (h : ¬ distance p (m.get k) < b) :
    considerMarker p m (x, some b) k = (x, some b) := by
  show (if distance p (m.get k) < b then (some k, some (distance p (m.get k))) else (x, some b))
    = (x, some b)
  rw [if_neg h]

/-- Leaf helper for the hit-testing specification: once the winning key of
the fold and its minimality facts are known, both halves of the
specification follow from the radius test alone. -/
lemma nearestMarker_leaf (p : Point) (m : MarkerMap) (k : MarkerKey)
    (hmin : ∀ j, distance p (m.get k) ≤ distance p (m.get j))
    (hstrict : ∀ j, keyIdx j < keyIdx k → distance p (m.get k) < distance p (m.get j))
    (hres : nearestMarker p m = if distance p (m.get k) < 26 then some k else none) :
    (∀ k2, nearestMarker p m = some k2 →
        distance p (m.get k2) < 26 ∧
        (∀ j, distance p (m.get k2) ≤ distance p (m.get j)) ∧
        (∀ j, keyIdx j < keyIdx k2 → distance p (m.get k2) < distance p (m.get j))) ∧
      (nearestMarker p m = none ↔ ∀ j, 26 ≤ distance p (m.get j)) := by
  by_cases h26 : distance p (m.get k) < 26
  · rw [hres, if_pos h26]
    constructor
    · intro k2 hk2
      obtain rfl : k = k2 := by injection hk2
      exact ⟨h26, hmin, hstrict⟩
    · constructor
      · intro hnone
        exact Option.noConfusion hnone
      · intro hall
        exact absurd (hall k) (not_le.mpr h26)
  · rw [hres, if_neg h26]
    constructor
    · intro k2 hk2
      exact Option.noConfusion hk2
    · constructor
      · intro _ j
        exact le_trans (not_lt.mp h26) (hmin j)
      · intro _
        rfl

/-- C5: for every image-space pointer point and every MarkerMap,
hit-testing selects a marker only when its Euclidean distance to the point
is strictly below the fixed 26 image-pixel pick radius and minimal among
all four markers, breaking exact-distance ties toward the key earliest in
the fixed enumeration order (leftPupil, rightPupil, leftCard, rightCard),
and selects no marker exactly when every marker is at least 26 pixels
away. -/
theorem nearestMarker_spec (p : Point) (m : MarkerMap) :
    (∀ k, nearestMarker p m = some k →
        distance p (m.get k) < 26 ∧
        (∀ j, distance p (m.get k) ≤ distance p (m.get j)) ∧
        (∀ j, keyIdx j < keyIdx k → distance p (m.get k) < distance p (m.get j))) ∧
      (nearestMarker p m = none ↔ ∀ j, 26 ≤ distance p (m.get j)) := by
  rcases lt_or_ge (distance p (m.get MarkerKey.rightPupil))
    (distance p (m.get MarkerKey.leftPupil)) with h1 | h1
  · rcases lt_or_ge (distance p (m.get MarkerKey.leftCard))
      (distance p (m.get MarkerKey.rightPupil)) with h2 | h2
    · rcases lt_or_ge (distance p (m.get MarkerKey.rightCard))
        (distance p (m.get MarkerKey.leftCard)) with h3 | h3
      · have hacc : markerKeys.foldl (considerMarker p m) (none, none) =
            (some MarkerKey.rightCard, some (distance p (m.get MarkerKey.rightCard))) := by
          simp only [markerKeys, List.foldl_cons, List.foldl_nil]
          rw [considerMarker_init, considerMarker_lt p m _ h1, considerMarker_lt p m _ h2,
            considerMarker_lt p m _ h3]
        have hres : nearestMarker p m =
            if distance p (m.get MarkerKey.rightCard) < 26 then some MarkerKey.rightCard
            else none := by
          simp only [nearestMarker]
          rw [hacc]
        refine nearestMarker_leaf p m MarkerKey.rightCard ?_ ?_ hres
        · intro j; cases j <;> linarith
        · intro j hj; cases j <;> simp only [keyIdx] at hj <;> linarith
      · have hacc : markerKeys.foldl (considerMarker p m) (none, none) =
            (some MarkerKey.leftCard, some (distance p (m.get MarkerKey.leftCard))) := by
          simp only [markerKeys, List.foldl_cons, List.foldl_nil]
          rw [considerMarker_init, considerMarker_lt p m _ h1, considerMarker_lt p m _ h2,
            considerMarker_not_lt p m _ (not_lt.mpr h3)]
        have hres : nearestMarker p m =
            if distance p (m.get MarkerKey.leftCard) < 26 then some MarkerKey.leftCard
            else none := by
          simp only [nearestMarker]
          rw [hacc]
        refine nearestMarker_leaf p m MarkerKey.leftCard ?_ ?_ hres
        · intro j; cases j <;> linarith
        · intro j hj; cases j <;> simp only [keyIdx] at hj <;> linarith
    · rcases lt_or_ge (distance p (m.get MarkerKey.rightCard))
        (distance p (m.get MarkerKey.rightPupil)) with h3 | h3
      · have hacc : markerKeys.foldl (considerMarker p m) (none, none) =
            (some MarkerKey.rightCard, some (distance p (m.get MarkerKey.rightCard))) := by
          simp only [markerKeys, List.foldl_cons, List.foldl_nil]
          rw [considerMarker_init, considerMarker_lt p m _ h1,
            considerMarker_not_lt p m _ (not_lt.mpr h2), considerMarker_lt p m _ h3]
        have hres : nearestMarker p m =
            if distance p (m.get MarkerKey.rightCard) < 26 then some MarkerKey.rightCard
            else none := by
          simp only [nearestMarker]
          rw [hacc]
        refine nearestMarker_leaf p m MarkerKey.rightCard ?_ ?_ hres
        · intro j; cases j <;> linarith
        · intro j hj; cases j <;> simp only [keyIdx] at hj <;> linarith
      · have hacc : markerKeys.foldl (considerMarker p m) (none, none) =
            (some MarkerKey.rightPupil, some (distance p (m.get MarkerKey.rightPupil))) := by
          simp only [markerKeys, List.foldl_cons, List.foldl_nil]
          rw [considerMarker_init, considerMarker_lt p m _ h1,
            considerMarker_not_lt p m _ (not_lt.mpr h2),
            considerMarker_not_lt p m _ (not_lt.mpr h3)]
        have hres : nearestMarker p m =
            if distance p (m.get MarkerKey.rightPupil) < 26 then some MarkerKey.rightPupil
            else none := by
          simp only [nearestMarker]
          rw [hacc]
        refine nearestMarker_leaf p m MarkerKey.rightPupil ?_ ?_ hres
        · intro j; cases j <;> linarith
        · intro j hj; cases j <;> simp only [keyIdx] at hj <;> linarith
  · rcases lt_or_ge (distance p (m.get MarkerKey.leftCard))
      (distance p (m.get MarkerKey.leftPupil)) with h2 | h2
    · rcases lt_or_ge (distance p (m.get MarkerKey.rightCard))
        (distance p (m.get MarkerKey.leftCard)) with h3 | h3
      · have hacc : markerKeys.foldl (considerMarker p m) (none, none) =
            (some MarkerKey.rightCard, some (distance p (m.get MarkerKey.rightCard))) := by
          simp only [markerKeys, List.foldl_cons, List.foldl_nil]
          rw [considerMarker_init, considerMarker_not_lt p m _ (not_lt.mpr h1),
            considerMarker_lt p m _ h2, considerMarker_lt p m _ h3]
        have hres : nearestMarker p m =
            if distance p (m.get MarkerKey.rightCard) < 26 then some MarkerKey.rightCard
            else none := by
          simp only [nearestMarker]
          rw [hacc]
        refine nearestMarker_leaf p m MarkerKey.rightCard ?_ ?_ hres
        · intro j; cases j <;> linarith
        · intro j hj; cases j <;> simp only [keyIdx] at hj <;> linarith
      · have hacc : markerKeys.foldl (considerMarker p m) (none, none) =
            (some MarkerKey.leftCard, some (distance p (m.get MarkerKey.leftCard))) := by
          simp only [markerKeys, List.foldl_cons, List.foldl_nil]
          rw [considerMarker_init, considerMarker_not_lt p m _ (not_lt.mpr h1),
            considerMarker_lt p m _ h2, considerMarker_not_lt p m _ (not_lt.mpr h3)]
        have hres : nearestMarker p m =
            if distance p (m.get MarkerKey.leftCard) < 26 then some MarkerKey.leftCard
            else none := by
          simp only [nearestMarker]
          rw [hacc]
        refine nearestMarker_leaf p m MarkerKey.leftCard ?_ ?_ hres
        · intro j; cases j <;> linarith
        · intro j hj; cases j <;> simp only [keyIdx] at hj <;> linarith
    · rcases lt_or_ge (distance p (m.get MarkerKey.rightCard))
        (distance p (m.get MarkerKey.leftPupil)) with h3 | h3
      · have hacc : markerKeys.foldl (considerMarker p m) (none, none) =
            (some MarkerKey.rightCard, some (distance p (m.get MarkerKey.rightCard))) := by
          simp only [markerKeys, List.foldl_cons, List.foldl_nil]
          rw [considerMarker_init, considerMarker_not_lt p m _ (not_lt.mpr h1),
            considerMarker_not_lt p m _ (not_lt.mpr h2), considerMarker_lt p m _ h3]
        have hres : nearestMarker p m =
            if distance p (m.get MarkerKey.rightCard) < 26 then some MarkerKey.rightCard
            else none := by
          simp only [nearestMarker]
          rw [hacc]
        refine nearestMarker_leaf p m MarkerKey.rightCard ?_ ?_ hres
        · intro j; cases j <;> linarith
        · intro j hj; cases j <;> simp only [keyIdx] at hj <;> linarith
      · have hacc : markerKeys.foldl (considerMarker p m) (none, none) =
            (some MarkerKey.leftPupil, some (distance p (m.get MarkerKey.leftPupil))) := by
          simp only [markerKeys, List.foldl_cons, List.foldl_nil]
          rw [considerMarker_init, considerMarker_not_lt p m _ (not_lt.mpr h1),
            considerMarker_not_lt p m _ (not_lt.mpr h2),
            considerMarker_not_lt p m _ (not_lt.mpr h3)]
        have hres : nearestMarker p m =
            if distance p (m.get MarkerKey.leftPupil) < 26 then some MarkerKey.leftPupil
            else none := by
          simp only [nearestMarker]
          rw [hacc]
        refine nearestMarker_leaf p m MarkerKey.leftPupil ?_ ?_ hres
        · intro j; cases j <;> linarith
        · intro j hj; cases j <;> simp only [keyIdx] at hj <;> linarith

/-- Tie sample: from the origin, leftPupil and rightPupil are both exactly
10 pixels away (within the pick radius) and the card corners are 100
pixels away. -/
def tieMarkers : MarkerMap := ⟨⟨10, 0⟩, ⟨0, 10⟩, ⟨100, 0⟩, ⟨0, 100⟩⟩

/-- Witness for C5 at the concrete equidistant tie: the earlier key
(leftPupil) is selected, its distance is below the radius, and it is no
farther than the equidistant rightPupil. -/
theorem nearestMarker_spec_witness :
    nearestMarker ⟨0, 0⟩ tieMarkers = some MarkerKey.leftPupil ∧
      distance ⟨0, 0⟩ (tieMarkers.get MarkerKey.leftPupil) < 26 ∧
      distance ⟨0, 0⟩ (tieMarkers.get MarkerKey.leftPupil) ≤
        distance ⟨0, 0⟩ (tieMarkers.get MarkerKey.rightPupil) := by
  have e0 : distance ⟨0, 0⟩ (tieMarkers.get MarkerKey.leftPupil) = 10 := by
    show Real.sqrt (((0 : ℝ) - 10) ^ 2 + ((0 : ℝ) - 0) ^ 2) = 10
    exact sqrt_eval (by norm_num) (by norm_num)
  have e1 : distance ⟨0, 0⟩ (tieMarkers.get MarkerKey.rightPupil) = 10 := by
    show Real.sqrt (((0 : ℝ) - 0) ^ 2 + ((0 : ℝ) - 10) ^ 2) = 10
    exact sqrt_eval (by norm_num) (by norm_num)
  have e2 : distance ⟨0, 0⟩ (tieMarkers.get MarkerKey.leftCard) = 100 := by
    show Real.sqrt (((0 : ℝ) - 100) ^ 2 + ((0 : ℝ) - 0) ^ 2) = 100
    exact sqrt_eval (by norm_num) (by norm_num)
  have e3 : distance ⟨0, 0⟩ (tieMarkers.get MarkerKey.rightCard) = 100 := by
    show Real.sqrt (((0 : ℝ) - 0) ^ 2 + ((0 : ℝ) - 100) ^ 2) = 100
    exact sqrt_eval (by norm_num) (by norm_num)
  have hacc : markerKeys.foldl (considerMarker ⟨0, 0⟩ tieMarkers) (none, none) =
      (some MarkerKey.leftPupil, some (distance ⟨0, 0⟩ (tieMarkers.get MarkerKey.leftPupil))) := by
    simp only [markerKeys, List.foldl_cons, List.foldl_nil]
    rw [considerMarker_init,
      considerMarker_not_lt ⟨0, 0⟩ tieMarkers _ (by rw [e1, e0]; norm_num),
      considerMarker_not_lt ⟨0, 0⟩ tieMarkers _ (by rw [e2, e0]; norm_num),
      considerMarker_not_lt ⟨0, 0⟩ tieMarkers _ (by rw [e3, e0]; norm_num)]
  have hres : nearestMarker ⟨0, 0⟩ tieMarkers = some MarkerKey.leftPupil := by
    simp only [nearestMarker]
    rw [hacc]
    show (if distance ⟨0, 0⟩ (tieMarkers.get MarkerKey.leftPupil) < 26 then
        some MarkerKey.leftPupil else none) = some MarkerKey.leftPupil
    rw [e0]
    norm_num
  have h := (nearestMarker_spec ⟨0, 0⟩ tieMarkers).1 MarkerKey.leftPupil hres
  exact ⟨hres, h.1, h.2.1 MarkerKey.rightPupil⟩

end ImviPD
